import Mathlib

/-!
Verification of the `botrate` library (github.com/cnlangzi/botrate): a
bot-aware rate limiter built from a decision orchestrator (`limiter.go`),
an asynchronous behavior analyzer (`analyzer/analyzer.go`), a
double-buffered Bloom dedup filter (`analyzer` package, `DoubleBufferBloom`),
an LRU visit counter (`analyzer/counter.go`), and a lazily populated pool of
token-bucket limiters for blocked clients.

The Go code is shallowly embedded below.  Machine integers (`uint16` counts)
are `Nat` with explicit `% 2^16`; Go maps plus LRU lists are fused into
recency-ordered association lists; `error` values are an explicit inductive
with a `none`/`some` wrapper for nil-ness; external collaborators (the
`knownbots` classifier, `hash/maphash`, and the `golang.org/x/time/rate`
token bucket) are parameters constrained only by their documented contracts.
-/

namespace Botrate

/-- Modulus of the Go `uint16`, the width of the visit count in
`analyzer/counter.go` (`data map[string]uint16`). -/
def U16MOD : Nat := 65536

/-! ## Bloom filter (external `bits-and-blooms/bloom/v3`, abstract model)

The `bloom.BloomFilter` used by `DoubleBufferBloom` is an external
component.  It is modelled abstractly and faithfully to its semantics: a
filter carries `numHash` hash functions (`hashFn i key` is the bit position
set for the i-th hash of `key`) and the list of set bit positions.
`Test` checks that every hash position is set; `Add` sets every hash
position.  This captures exactly the no-false-negative / possible
false-positive behavior of a Bloom filter. -/

structure BloomFilter where
  numHash : Nat
  hashFn : Nat → Nat → Nat
  bits : List Nat

/-- `bloom.NewWithEstimates`: a fresh filter with no bit set. -/
def BloomFilter.fresh (numHash : Nat) (hashFn : Nat → Nat → Nat) : BloomFilter :=
  ⟨numHash, hashFn, []⟩

/-- `BloomFilter.Test`: true iff every hash position of `key` is set. -/
def BloomFilter.Test (f : BloomFilter) (key : Nat) : Bool :=
  (List.range f.numHash).all fun i => f.bits.contains (f.hashFn i key)

/-- `BloomFilter.Add`: set every hash position of `key`. -/
def BloomFilter.Add (f : BloomFilter) (key : Nat) : BloomFilter :=
  { f with bits := ((List.range f.numHash).map fun i => f.hashFn i key) ++ f.bits }

/-! ## `DoubleBufferBloom` (analyzer package) -/

/-- `DoubleBufferBloom`: current and previous generation filters. -/
structure DoubleBufferBloom where
  current : BloomFilter
  previous : BloomFilter

/-- `DoubleBufferBloom.TestAndAdd`: if `current.Test(key)` then return true
without mutation; otherwise add `key` to `current` and return false. -/
def DoubleBufferBloom.TestAndAdd (dbf : DoubleBufferBloom) (key : Nat) :
    Bool × DoubleBufferBloom :=
  if dbf.current.Test key then (true, dbf)
  else (false, { dbf with current := dbf.current.Add key })

/-- `DoubleBufferBloom.Rotate`: previous := current; current := fresh filter
(same construction parameters). -/
def DoubleBufferBloom.Rotate (dbf : DoubleBufferBloom) : DoubleBufferBloom :=
  { current := BloomFilter.fresh dbf.current.numHash dbf.current.hashFn
    previous := dbf.current }

/-- Replay of a list of `TestAndAdd` calls (state after each call). -/
def DoubleBufferBloom.runTAA (dbf : DoubleBufferBloom) (keys : List Nat) :
    DoubleBufferBloom :=
  keys.foldl (fun d k => (d.TestAndAdd k).2) dbf

/-! ## `Counter` (analyzer/counter.go)

The Go `Counter` keeps `data map[string]uint16`, an LRU `list.List` of ips
(front = most recently used) and an `index` from ip to list element.  The
three structures always hold exactly the same keys, so they are fused here
into one recency-ordered association list (`entries`, front = most recently
used).  Counts are `Nat` kept below `2^16`; the Go `count+1` on `uint16`
is `(count+1) % U16MOD`. -/

structure Counter where
  maxSize : Nat
  entries : List (String × Nat)

/-- `NewCounter` with a given capacity (the Go constructor hardcodes
`maxSize: 100000`). -/
def Counter.empty (maxSize : Nat) : Counter := ⟨maxSize, []⟩

/-- `NewCounter()`: capacity 100000, no entries. -/
def NewCounter : Counter := Counter.empty 100000

/-- `Counter.Visit`: if `ip` has an entry, increment (uint16 wrap) and move
to front; otherwise, if at capacity, evict the least-recently-used entry
(back of the LRU list), then insert a fresh entry with count 1. -/
def Counter.Visit (c : Counter) (ip : String) : Nat × Counter :=
  match c.entries.lookup ip with
  | some count0 =>
      let count := (count0 + 1) % U16MOD
      (count, { c with entries := (ip, count) :: c.entries.filter fun e => e.1 != ip })
  | none =>
      let pruned := if c.maxSize ≤ c.entries.length then c.entries.dropLast else c.entries
      (1, { c with entries := (ip, 1) :: pruned })

/-- `Counter.Count`: read-only lookup; a missing key reads as 0 (Go map
zero value). -/
def Counter.Count (c : Counter) (ip : String) : Nat :=
  (c.entries.lookup ip).getD 0

/-- `Counter.Clear`: reset to empty (same capacity). -/
def Counter.Clear (c : Counter) : Counter := { c with entries := [] }

/-- The result of the n-th of `n` consecutive `Visit` calls for `ip`
(paired with the counter state after them); `(0, c)` for `n = 0`. -/
def Counter.visitIter (c : Counter) (ip : String) : Nat → Nat × Counter
  | 0 => (0, c)
  | n + 1 => ((c.visitIter ip n).2).Visit ip

/-- Visit each ip of a list in order, discarding the returned counts. -/
def Counter.visitAll (c : Counter) (ips : List String) : Counter :=
  ips.foldl (fun c i => (c.Visit i).2) c

/-! ## `Analyzer` (analyzer/analyzer.go)

The analyzer owns the blocklist (an atomically published immutable set,
here the list of blocked ips), the bounded observation queue (a buffered
channel of capacity `QueueCap`), the dedup filter and the visit counter.
The `hash/maphash` digests (`hashStr`, `hashIPPath`) are external pure
functions and appear as parameters. -/

/-- `analyzer.Config` (`Window` is a duration, modelled in nanoseconds;
rotation is an explicit worker operation below). `PageThreshold` is a Go
`int`, compared against the `uint16` count via `int(count) >= threshold`. -/
structure Config where
  window : Nat
  pageThreshold : Int
  queueCap : Nat

/-- `analyzer.Request`: client ip and the 64-bit page digest. -/
structure Request where
  ip : String
  path : Nat
deriving DecidableEq

/-- The analyzer state: blocklist snapshot, queue contents, dedup filter,
visit counter. -/
structure Analyzer where
  blocklist : List String
  queue : List Request
  bloom : DoubleBufferBloom
  counter : Counter

/-- `Analyzer.Blocked`: membership test on the current blocklist
snapshot. -/
def Analyzer.Blocked (a : Analyzer) (ip : String) : Bool :=
  a.blocklist.contains ip

/-- `Analyzer.Record`: hash the path, then non-blocking send on the
buffered queue channel — enqueue when the buffer has free capacity,
otherwise drop the observation (the `default` branch of the `select`,
which only recycles the request object). -/
def Analyzer.Record (cfg : Config) (hashStr : String → Nat) (a : Analyzer)
    (ip path : String) : Analyzer :=
  if a.queue.length < cfg.queueCap then
    { a with queue := a.queue ++ [⟨ip, hashStr path⟩] }
  else a

/-- `Analyzer.block`: copy-on-write promotion — if `ip` is already in the
snapshot return it unchanged, otherwise publish a copy extended with
`ip`. -/
def block (bl : List String) (ip : String) : List String :=
  if bl.contains ip then bl else ip :: bl

/-- `Analyzer.analyze`: dedup via `TestAndAdd` on the `(ip, path)` digest
(discard when already seen), otherwise `Visit` the counter and promote the
ip to the blocklist when `int(count) >= PageThreshold`. -/
def Analyzer.analyze (cfg : Config) (hashIPPath : String → Nat → Nat)
    (a : Analyzer) (req : Request) : Analyzer :=
  let r := a.bloom.TestAndAdd (hashIPPath req.ip req.path)
  if r.1 then { a with bloom := r.2 }
  else
    let v := a.counter.Visit req.ip
    if (v.1 : Int) ≥ cfg.pageThreshold then
      { a with bloom := r.2, counter := v.2, blocklist := block a.blocklist req.ip }
    else
      { a with bloom := r.2, counter := v.2 }

/-- One worker iteration taking an observation from the queue
(`case req := <-a.queue`). -/
def Analyzer.processOne (cfg : Config) (hashIPPath : String → Nat → Nat)
    (a : Analyzer) : Analyzer :=
  match a.queue with
  | [] => a
  | req :: rest => Analyzer.analyze cfg hashIPPath { a with queue := rest } req

/-- `Analyzer.rotate` (ticker branch of the worker): rotate the dedup
filter and clear the visit counter; the blocklist is untouched. -/
def Analyzer.rotate (a : Analyzer) : Analyzer :=
  { a with bloom := a.bloom.Rotate, counter := a.counter.Clear }

/-- The operations that can touch analyzer state after construction:
a producer `Record`, the worker processing one queued observation, and the
periodic rotation.  (`Close` only closes the stop channel; it does not
touch the blocklist.) -/
inductive WorkerOp where
  | record (ip path : String)
  | process
  | rotate

/-- Apply one operation to the analyzer state. -/
def Analyzer.step (cfg : Config) (hashStr : String → Nat)
    (hashIPPath : String → Nat → Nat) (a : Analyzer) : WorkerOp → Analyzer
  | .record ip path => a.Record cfg hashStr ip path
  | .process => a.processOne cfg hashIPPath
  | .rotate => a.rotate

/-- Apply a sequence of operations. -/
def Analyzer.run (cfg : Config) (hashStr : String → Nat)
    (hashIPPath : String → Nat → Nat) (a : Analyzer) (ops : List WorkerOp) : Analyzer :=
  ops.foldl (Analyzer.step cfg hashStr hashIPPath) a

/-! ## Orchestrator (limiter.go) -/

/-- `knownbots` verification statuses. -/
inductive Status where
  | verified
  | pending
  | failed
  | unknown
deriving DecidableEq

/-- `knownbots` classification result: `{IsBot, Status}`. -/
structure BotResult where
  isBot : Bool
  status : Status
deriving DecidableEq

/-- Go `error` values relevant here.  `context.Canceled`,
`context.DeadlineExceeded`, the non-nil error the `x/time/rate` bucket
returns when it denies without a context error, and anything else.
A nilable Go `error` is `Option GoErr` (`none` = nil). -/
inductive GoErr where
  | canceled
  | deadlineExceeded
  | rateError (msg : String)
  | other (msg : String)
deriving DecidableEq

/-- `var ErrLimit = context.DeadlineExceeded` (botrate error definitions
file): the rate-limit sentinel is literally the context deadline error
value. -/
def ErrLimit : GoErr := GoErr.deadlineExceeded

/-- Outcome of `rate.Limiter.Wait(ctx)` (external `golang.org/x/time/rate`
token bucket, modelled by its contract): either a token was acquired and
`Wait` returned nil, or the context of the caller ended first and `Wait`
returned that (non-nil) context error, or the bucket denied without a
context error — `x/time/rate` then returns a non-nil rate error without
consuming a token. -/
inductive BucketWaitOutcome where
  | acquired
  | ctxDone (e : GoErr)
  | denied (e : GoErr)

/-- The Go `error` value `rate.Limiter.Wait` returns for each outcome. -/
def BucketWaitOutcome.toErr : BucketWaitOutcome → Option GoErr
  | .acquired => none
  | .ctxDone e => some e
  | .denied e => some e

/-- The external collaborators of the orchestrator: the `knownbots`
classifier, the `maphash` digests, and the per-ip token-bucket behavior at
the moment of the call (`bucketAllow ip` = would `Allow()` grant a token;
`bucketWait ip` = how `Wait(ctx)` resolves for the context of the caller). -/
structure Env where
  validate : String → String → BotResult
  hashStr : String → Nat
  hashIPPath : String → Nat → Nat
  bucketAllow : String → Bool
  bucketWait : String → BucketWaitOutcome

/-- The limiter-pool keys (`l.blocked sync.Map`): the set of ips for which
a token-bucket entry exists. -/
structure LimiterState where
  pool : List String
  analyzer : Analyzer

/-- `Limiter.getLimiter`: `LoadOrStore` — reuse the existing entry, else
install a fresh `rate.NewLimiter(limit, 1)` entry for `ip` (first writer
wins); returns the updated pool key set. -/
def Limiter.getLimiter (pool : List String) (ip : String) : List String :=
  if pool.contains ip then pool else ip :: pool

/-- Denial reasons of the orchestrator decision (spec taxonomy `None`,
`FakeBot`, `RateLimited`).  The Go `Allow` collapses the outcome to its
boolean; the reason labels which branch produced it, exactly as the code
comments mark them (`Fake bot ... block immediately`, `Behavior anomaly:
apply rate limit`). -/
inductive Reason where
  | noReason
  | fakeBot
  | rateLimited
deriving DecidableEq

/-- Result of `Limiter.Allow`: the returned boolean, the branch reason,
and the post-call state. -/
structure AllowResult where
  allowed : Bool
  reason : Reason
  state : LimiterState

/-- `Limiter.Allow(ua, ip)`: layer 1 classifies `(ua, ip)`; a verified or
pending bot is allowed untouched, a failed/unknown bot is denied
immediately; layer 2 sends blocklisted ips through their token bucket
(creating the pool entry on demand); layer 3 records `(ip, ua)` into the
analyzer and allows. -/
def Limiter.Allow (env : Env) (cfg : Config) (st : LimiterState)
    (ua ip : String) : AllowResult :=
  let botResult := env.validate ua ip
  if botResult.isBot then
    match botResult.status with
    | .verified => ⟨true, .noReason, st⟩
    | .pending => ⟨true, .noReason, st⟩
    | .failed => ⟨false, .fakeBot, st⟩
    | .unknown => ⟨false, .fakeBot, st⟩
  else if st.analyzer.Blocked ip then
    ⟨env.bucketAllow ip, if env.bucketAllow ip then .noReason else .rateLimited,
      { st with pool := Limiter.getLimiter st.pool ip }⟩
  else
    ⟨true, .noReason,
      { st with analyzer := st.analyzer.Record cfg env.hashStr ip ua }⟩

/-- `Limiter.Wait(ctx, ua, ip)`: same layering as `Allow`; a failed or
unknown bot gets `ErrLimit` immediately, a blocklisted ip suspends on the
Wait(ctx) of its bucket and the error is returned verbatim, everyone else is
recorded and gets nil. -/
def Limiter.Wait (env : Env) (cfg : Config) (st : LimiterState)
    (ua ip : String) : Option GoErr × LimiterState :=
  let botResult := env.validate ua ip
  if botResult.isBot then
    match botResult.status with
    | .verified => (none, st)
    | .pending => (none, st)
    | .failed => (some ErrLimit, st)
    | .unknown => (some ErrLimit, st)
  else if st.analyzer.Blocked ip then
    ((env.bucketWait ip).toErr, { st with pool := Limiter.getLimiter st.pool ip })
  else
    (none, { st with analyzer := st.analyzer.Record cfg env.hashStr ip ua })

/-! ## Concrete fixtures (used by the witnesses) -/

/-- A concrete double-buffered Bloom filter (2 hash functions, fresh). -/
def dbfFix : DoubleBufferBloom :=
  { current := BloomFilter.fresh 2 fun i k => i + 3 * k
    previous := BloomFilter.fresh 2 fun i k => i + 3 * k }

/-- A freshly constructed analyzer state (`analyzer.New`). -/
def analyzerFix : Analyzer :=
  { blocklist := [], queue := [], bloom := dbfFix, counter := NewCounter }

/-- A concrete configuration: 1s window, threshold 3, queue capacity 4. -/
def cfgFix : Config := { window := 1000000000, pageThreshold := 3, queueCap := 4 }

/-- A fresh limiter state: empty pool, fresh analyzer. -/
def stFix : LimiterState := { pool := [], analyzer := analyzerFix }

/-- A limiter state whose analyzer has already blocklisted one ip. -/
def stBlocked : LimiterState :=
  { pool := [], analyzer := { analyzerFix with blocklist := ["198.51.100.7"] } }

/-- Environment where the classifier reports a failed (fake) bot. -/
def envFakeBot : Env :=
  { validate := fun _ _ => ⟨true, .failed⟩
    hashStr := fun _ => 7
    hashIPPath := fun s k => s.length + k
    bucketAllow := fun _ => true
    bucketWait := fun _ => .acquired }

/-- Environment where the classifier reports a pending bot. -/
def envPending : Env :=
  { envFakeBot with validate := fun _ _ => ⟨true, .pending⟩ }

/-- Environment for a normal (non-bot) client whose token bucket denies
without a context error. -/
def envDenied : Env :=
  { envFakeBot with
    validate := fun _ _ => ⟨false, .unknown⟩
    bucketWait := fun _ => .denied (.rateError "rate: Wait(n=1) would exceed context deadline") }

/-! ## Claim theorems -/

/-- C1: whenever the classifier reports `(ua, ip)` as a bot with status
`Failed` or `Unknown`, `Allow` denies on the very first call with reason
`FakeBot`, and the call leaves the limiter state — in particular the
limiter pool — completely unchanged, so no pool entry is created for that
client. -/
theorem allow_denies_fake_bot_immediately (env : Env) (cfg : Config)
    (st : LimiterState) (ua ip : String)
    (hbot : (env.validate ua ip).isBot = true)
    (hst : (env.validate ua ip).status = Status.failed ∨
           (env.validate ua ip).status = Status.unknown) :
    (Limiter.Allow env cfg st ua ip).allowed = false ∧
    (Limiter.Allow env cfg st ua ip).reason = Reason.fakeBot ∧
    (Limiter.Allow env cfg st ua ip).state = st ∧
    (Limiter.Allow env cfg st ua ip).state.pool = st.pool := by
  unfold Limiter.Allow
  rcases hst with h | h <;> simp [hbot, h]

/-- Witness for C1 at a concrete fake-bot environment and fresh state. -/
theorem allow_denies_fake_bot_immediately_witness :
    (Limiter.Allow envFakeBot cfgFix stFix "GPTBot" "203.0.113.9").allowed = false ∧
    (Limiter.Allow envFakeBot cfgFix stFix "GPTBot" "203.0.113.9").reason = Reason.fakeBot ∧
    (Limiter.Allow envFakeBot cfgFix stFix "GPTBot" "203.0.113.9").state = stFix ∧
    (Limiter.Allow envFakeBot cfgFix stFix "GPTBot" "203.0.113.9").state.pool = stFix.pool :=
  allow_denies_fake_bot_immediately envFakeBot cfgFix stFix "GPTBot" "203.0.113.9"
    rfl (Or.inl rfl)

/-- C5: whenever the classifier reports a bot with status `Pending`, both
`Allow` (true, no reason) and `Wait` (nil) let the request through with the
state untouched: the blocklist and the limiter pool are never consulted or
changed, and nothing is recorded, so classification is simply retried on
the next call.  (The conclusion holds for every state `st`, so the result
is independent of the blocklist and pool contents.) -/
theorem pending_bot_allowed_and_untouched (env : Env) (cfg : Config)
    (st : LimiterState) (ua ip : String)
    (hbot : (env.validate ua ip).isBot = true)
    (hst : (env.validate ua ip).status = Status.pending) :
    (Limiter.Allow env cfg st ua ip).allowed = true ∧
    (Limiter.Allow env cfg st ua ip).reason = Reason.noReason ∧
    (Limiter.Allow env cfg st ua ip).state = st ∧
    (Limiter.Wait env cfg st ua ip).1 = none ∧
    (Limiter.Wait env cfg st ua ip).2 = st := by
  unfold Limiter.Allow Limiter.Wait
  simp [hbot, hst]

/-- Witness for C5 at a concrete pending-bot environment. -/
theorem pending_bot_allowed_and_untouched_witness :
    (Limiter.Allow envPending cfgFix stFix "Googlebot/2.1" "66.249.66.1").allowed = true ∧
    (Limiter.Allow envPending cfgFix stFix "Googlebot/2.1" "66.249.66.1").reason = Reason.noReason ∧
    (Limiter.Allow envPending cfgFix stFix "Googlebot/2.1" "66.249.66.1").state = stFix ∧
    (Limiter.Wait envPending cfgFix stFix "Googlebot/2.1" "66.249.66.1").1 = none ∧
    (Limiter.Wait envPending cfgFix stFix "Googlebot/2.1" "66.249.66.1").2 = stFix :=
  pending_bot_allowed_and_untouched envPending cfgFix stFix "Googlebot/2.1" "66.249.66.1"
    rfl rfl

/-- C2: for a blocked non-bot client, `Wait` passes the bucket outcome
through verbatim: if the context of the caller ends first it returns that
context error, and if the bucket denies without a context error it returns
that (non-nil) rate-limit error — never nil. -/
theorem wait_blocked_denial_never_nil (env : Env) (cfg : Config)
    (st : LimiterState) (ua ip : String)
    (hnb : (env.validate ua ip).isBot = false)
    (hbl : st.analyzer.Blocked ip = true) :
    (∀ e, env.bucketWait ip = BucketWaitOutcome.ctxDone e →
        (Limiter.Wait env cfg st ua ip).1 = some e) ∧
    (∀ e, env.bucketWait ip = BucketWaitOutcome.denied e →
        (Limiter.Wait env cfg st ua ip).1 = some e ∧
        (Limiter.Wait env cfg st ua ip).1 ≠ none) := by
  unfold Limiter.Wait
  constructor <;> intro e he <;>
    simp [hnb, hbl, he, BucketWaitOutcome.toErr]

/-- Witness for C2: a blocked client whose bucket denies without a context
error gets a concrete non-nil error back. -/
theorem wait_blocked_denial_never_nil_witness :
    (Limiter.Wait envDenied cfgFix stBlocked "curl/8.0" "198.51.100.7").1 =
      some (GoErr.rateError "rate: Wait(n=1) would exceed context deadline") ∧
    (Limiter.Wait envDenied cfgFix stBlocked "curl/8.0" "198.51.100.7").1 ≠ none :=
  (wait_blocked_denial_never_nil envDenied cfgFix stBlocked "curl/8.0" "198.51.100.7"
      rfl (by decide)).2 _ rfl

/-- C10: `ErrLimit` is literally `context.DeadlineExceeded`, so a `Wait`
denial for a fake bot (status `Failed` or `Unknown`) returns
`context.DeadlineExceeded` — the conclusion holds for every environment,
in particular whatever the (live) context of the caller would do — and the
returned error is exactly the value a context deadline expiry in the
bucket path yields, so callers cannot tell the two apart by comparing
errors. -/
theorem errlimit_conflates_deadline (env : Env) (cfg : Config)
    (st : LimiterState) (ua ip : String)
    (hbot : (env.validate ua ip).isBot = true)
    (hst : (env.validate ua ip).status = Status.failed ∨
           (env.validate ua ip).status = Status.unknown) :
    ErrLimit = GoErr.deadlineExceeded ∧
    (Limiter.Wait env cfg st ua ip).1 = some GoErr.deadlineExceeded ∧
    (Limiter.Wait env cfg st ua ip).1 =
      (BucketWaitOutcome.ctxDone GoErr.deadlineExceeded).toErr := by
  unfold Limiter.Wait
  rcases hst with h | h <;> simp [hbot, h, ErrLimit, BucketWaitOutcome.toErr]

/-- Witness for C10 at a concrete fake-bot environment. -/
theorem errlimit_conflates_deadline_witness :
    ErrLimit = GoErr.deadlineExceeded ∧
    (Limiter.Wait envFakeBot cfgFix stFix "GPTBot" "203.0.113.9").1 =
      some GoErr.deadlineExceeded ∧
    (Limiter.Wait envFakeBot cfgFix stFix "GPTBot" "203.0.113.9").1 =
      (BucketWaitOutcome.ctxDone GoErr.deadlineExceeded).toErr :=
  errlimit_conflates_deadline envFakeBot cfgFix stFix "GPTBot" "203.0.113.9"
    rfl (Or.inl rfl)

/-- Bridge between the `Bool`-valued `List.contains` used by the embedded
code and propositional membership. -/
theorem contains_mem {α : Type} [BEq α] [LawfulBEq α] (l : List α) (x : α) :
    l.contains x = true ↔ x ∈ l := by
  unfold List.contains
  exact List.elem_iff

/-- C6: `Record` never blocks: it either appends the observation to the
queue (when the buffered channel has free capacity) or drops it silently —
in the drop case the whole state is returned unchanged, and in both cases
the blocklist, dedup filter and counter are untouched and no error is
reported (there is no error channel at all in the return type). -/
theorem record_enqueue_or_silent_drop (cfg : Config) (hashStr : String → Nat)
    (a : Analyzer) (ip path : String) :
    ((a.Record cfg hashStr ip path).blocklist = a.blocklist ∧
     (a.Record cfg hashStr ip path).bloom = a.bloom ∧
     (a.Record cfg hashStr ip path).counter = a.counter) ∧
    (a.queue.length < cfg.queueCap →
       (a.Record cfg hashStr ip path).queue = a.queue ++ [⟨ip, hashStr path⟩]) ∧
    (cfg.queueCap ≤ a.queue.length → a.Record cfg hashStr ip path = a) := by
  unfold Analyzer.Record
  refine ⟨by split <;> simp, fun h => by simp [h], fun h => ?_⟩
  rw [if_neg (by omega)]

/-- A full analyzer queue (4 observations at `cfgFix.queueCap = 4`). -/
def analyzerFull : Analyzer :=
  { analyzerFix with queue := [⟨"a", 1⟩, ⟨"b", 2⟩, ⟨"c", 3⟩, ⟨"d", 4⟩] }

/-- Witness for C6: a record into a non-full queue appends; a record into
a full queue leaves the state unchanged. -/
theorem record_enqueue_or_silent_drop_witness :
    (analyzerFix.Record cfgFix (fun _ => 7) "198.51.100.7" "/a").queue =
        analyzerFix.queue ++ [⟨"198.51.100.7", 7⟩] ∧
    analyzerFull.Record cfgFix (fun _ => 7) "198.51.100.7" "/a" = analyzerFull :=
  ⟨(record_enqueue_or_silent_drop cfgFix (fun _ => 7) analyzerFix "198.51.100.7" "/a").2.1
      (by decide),
   (record_enqueue_or_silent_drop cfgFix (fun _ => 7) analyzerFull "198.51.100.7" "/a").2.2
      (by decide)⟩

/-- A test against a filter with no bit set fails as soon as there is at
least one hash function. -/
theorem BloomFilter.test_fresh_false (f : BloomFilter) (k : Nat)
    (hb : f.bits = []) (hn : 0 < f.numHash) : f.Test k = false := by
  unfold BloomFilter.Test
  refine List.all_eq_false.mpr ⟨0, List.mem_range.mpr hn, ?_⟩
  simp [hb]

/-- After `Add k`, a test for `k` succeeds (every hash position was just
set). -/
theorem BloomFilter.test_add_self (f : BloomFilter) (k : Nat) :
    (f.Add k).Test k = true := by
  unfold BloomFilter.Test BloomFilter.Add
  rw [List.all_eq_true]
  intro i hi
  rw [contains_mem]
  simp only [List.mem_append]
  exact Or.inl (List.mem_map_of_mem _ hi)

/-- Tests are monotone under growing the bit set (same hash parameters). -/
theorem BloomFilter.test_mono (f g : BloomFilter) (k : Nat)
    (hn : g.numHash = f.numHash) (hh : g.hashFn = f.hashFn)
    (hb : ∀ x, f.bits.contains x = true → g.bits.contains x = true)
    (ht : f.Test k = true) : g.Test k = true := by
  unfold BloomFilter.Test at ht ⊢
  rw [hn, hh, List.all_eq_true] at *
  intro i hi
  exact hb _ (ht i hi)

/-- One `TestAndAdd` call preserves the hash parameters of the current
generation and only grows its bit set. -/
theorem taa_step_preserves (dbf : DoubleBufferBloom) (k : Nat) :
    ((dbf.TestAndAdd k).2).current.numHash = dbf.current.numHash ∧
    ((dbf.TestAndAdd k).2).current.hashFn = dbf.current.hashFn ∧
    ∀ x, dbf.current.bits.contains x = true →
        ((dbf.TestAndAdd k).2).current.bits.contains x = true := by
  unfold DoubleBufferBloom.TestAndAdd
  split
  · simp
  · refine ⟨rfl, rfl, fun x hx => ?_⟩
    show (dbf.current.Add k).bits.contains x = true
    unfold BloomFilter.Add
    rw [contains_mem]
    exact List.mem_append_right _ ((contains_mem _ _).mp hx)

/-- A whole sequence of `TestAndAdd` calls preserves the hash parameters
and only grows the bit set of the current generation. -/
theorem runTAA_preserves (dbf : DoubleBufferBloom) (keys : List Nat) :
    (dbf.runTAA keys).current.numHash = dbf.current.numHash ∧
    (dbf.runTAA keys).current.hashFn = dbf.current.hashFn ∧
    ∀ x, dbf.current.bits.contains x = true →
        (dbf.runTAA keys).current.bits.contains x = true := by
  induction keys generalizing dbf with
  | nil => exact ⟨rfl, rfl, fun _ h => h⟩
  | cons k ks ih =>
    have hstep := taa_step_preserves dbf k
    have htail := ih (dbf.TestAndAdd k).2
    refine ⟨htail.1.trans hstep.1, htail.2.1.trans hstep.2.1, fun x hx => ?_⟩
    exact htail.2.2 x (hstep.2.2 x hx)

/-- C7: on a fresh generation (empty bit set, at least one hash function)
the first `TestAndAdd k` returns false and inserts `k`; after that, no
matter what further keys are test-and-added in the same generation, every
subsequent `TestAndAdd k` returns true and leaves the state unchanged —
in particular a key actually inserted is never reported unseen (no false
negatives within a generation). -/
theorem testAndAdd_first_false_then_true (dbf : DoubleBufferBloom) (k : Nat)
    (keys : List Nat)
    (hfresh : dbf.current.bits = []) (hn : 0 < dbf.current.numHash) :
    (dbf.TestAndAdd k).1 = false ∧
    (dbf.TestAndAdd k).2 = { dbf with current := dbf.current.Add k } ∧
    (((dbf.TestAndAdd k).2).runTAA keys).TestAndAdd k =
      (true, ((dbf.TestAndAdd k).2).runTAA keys) := by
  have hfalse : dbf.current.Test k = false := BloomFilter.test_fresh_false _ _ hfresh hn
  have h1 : dbf.TestAndAdd k = (false, { dbf with current := dbf.current.Add k }) := by
    unfold DoubleBufferBloom.TestAndAdd
    rw [hfalse]
    simp
  refine ⟨by rw [h1], by rw [h1], ?_⟩
  have hpres := runTAA_preserves (dbf.TestAndAdd k).2 keys
  have h2 : ((dbf.TestAndAdd k).2).current = dbf.current.Add k := by rw [h1]
  have htest : (((dbf.TestAndAdd k).2).runTAA keys).current.Test k = true := by
    refine BloomFilter.test_mono ((dbf.TestAndAdd k).2).current _ k hpres.1 hpres.2.1
      hpres.2.2 ?_
    rw [h2]
    exact BloomFilter.test_add_self dbf.current k
  generalize ((dbf.TestAndAdd k).2).runTAA keys = d2 at htest ⊢
  unfold DoubleBufferBloom.TestAndAdd
  rw [htest]
  simp

/-- Witness for C7 at a concrete fresh filter, key 5, and later keys
`[7, 5, 9]` in the same generation. -/
theorem testAndAdd_first_false_then_true_witness :
    (dbfFix.TestAndAdd 5).1 = false ∧
    (dbfFix.TestAndAdd 5).2 = { dbfFix with current := dbfFix.current.Add 5 } ∧
    (((dbfFix.TestAndAdd 5).2).runTAA [7, 5, 9]).TestAndAdd 5 =
      (true, ((dbfFix.TestAndAdd 5).2).runTAA [7, 5, 9]) :=
  testAndAdd_first_false_then_true dbfFix 5 [7, 5, 9] rfl (by decide)

/-- `Visit` returns exactly the previous `Count` plus one (with the Go
`uint16` wrap), whether the entry existed (increment) or not (fresh entry
with count 1 = 0 + 1). -/
theorem visit_increments (c : Counter) (ip : String) :
    (c.Visit ip).1 = (c.Count ip + 1) % U16MOD := by
  unfold Counter.Visit Counter.Count
  cases h : c.entries.lookup ip
  · simp [h, U16MOD]
  · simp [h]

/-- Membership in the copy-on-write promoted blocklist: the published set
is exactly the prior set plus the promoted ip (and literally the prior set
when the ip was already present). -/
theorem block_mem (bl : List String) (ip x : String) :
    x ∈ block bl ip ↔ (x ∈ bl ∨ x = ip) := by
  unfold block
  split
  · rename_i h
    rw [contains_mem] at h
    constructor
    · exact Or.inl
    · rintro (hx | rfl)
      · exact hx
      · exact h
  · rw [List.mem_cons]
    tauto

/-- C3: for every observation the worker analyzes: if the dedup filter
reports the `(ip, page)` key already seen in the current generation, the
observation is discarded — counter and blocklist unchanged; otherwise the
counter entry of the client is incremented (previous count + 1, uint16 wrap)
and, exactly when the new count reaches `PageThreshold`, the client is
promoted: the published blocklist is the prior set plus that client; below
the threshold the blocklist is unchanged. -/
theorem analyze_dedup_or_count_and_promote (cfg : Config)
    (hashIPPath : String → Nat → Nat) (a : Analyzer) (req : Request) :
    ((a.bloom.TestAndAdd (hashIPPath req.ip req.path)).1 = true →
        (a.analyze cfg hashIPPath req).counter = a.counter ∧
        (a.analyze cfg hashIPPath req).blocklist = a.blocklist) ∧
    ((a.bloom.TestAndAdd (hashIPPath req.ip req.path)).1 = false →
        (a.analyze cfg hashIPPath req).counter = (a.counter.Visit req.ip).2 ∧
        (a.counter.Visit req.ip).1 = (a.counter.Count req.ip + 1) % U16MOD ∧
        ((((a.counter.Visit req.ip).1 : Int)) ≥ cfg.pageThreshold →
            ∀ x, x ∈ (a.analyze cfg hashIPPath req).blocklist ↔
                 (x ∈ a.blocklist ∨ x = req.ip)) ∧
        ((((a.counter.Visit req.ip).1 : Int)) < cfg.pageThreshold →
            (a.analyze cfg hashIPPath req).blocklist = a.blocklist)) := by
  constructor
  · intro h
    simp only [Analyzer.analyze, h]
    exact ⟨rfl, rfl⟩
  · intro h
    refine ⟨?_, visit_increments a.counter req.ip, ?_, ?_⟩
    · simp only [Analyzer.analyze, h, Bool.false_eq_true, if_false]
      split <;> rfl
    · intro hge x
      simp only [Analyzer.analyze, h, Bool.false_eq_true, if_false, if_pos hge]
      exact block_mem a.blocklist req.ip x
    · intro hlt
      simp only [Analyzer.analyze, h, Bool.false_eq_true, if_false,
        if_neg (not_le.mpr hlt)]

/-- The `maphash`-style digest functions used by the witnesses. -/
def hipFix : String → Nat → Nat := fun s k => s.length + k

/-- A configuration with `PageThreshold = 1`. -/
def cfgThr1 : Config := { window := 1000000000, pageThreshold := 1, queueCap := 4 }

/-- An analyzer whose current dedup generation already contains the bit
positions of the digest of `("1.2.3.4", 7)` under `hipFix` (key 14, hash
positions 42 and 43 under the `dbfFix` parameters). -/
def analyzerSeen : Analyzer :=
  { analyzerFix with bloom := { dbfFix with current := { dbfFix.current with bits := [42, 43] } } }

/-- Witness for C3: at a seen key the counter and blocklist stay unchanged;
at an unseen key with threshold 1, the client lands on the blocklist. -/
theorem analyze_dedup_or_count_and_promote_witness :
    ((analyzerSeen.analyze cfgThr1 hipFix ⟨"1.2.3.4", 7⟩).counter = analyzerSeen.counter ∧
     (analyzerSeen.analyze cfgThr1 hipFix ⟨"1.2.3.4", 7⟩).blocklist = analyzerSeen.blocklist) ∧
    "1.2.3.4" ∈ (analyzerFix.analyze cfgThr1 hipFix ⟨"1.2.3.4", 7⟩).blocklist :=
  ⟨(analyze_dedup_or_count_and_promote cfgThr1 hipFix analyzerSeen ⟨"1.2.3.4", 7⟩).1
      (by decide),
   (((analyze_dedup_or_count_and_promote cfgThr1 hipFix analyzerFix ⟨"1.2.3.4", 7⟩).2
      (by decide)).2.2.1 (by decide) "1.2.3.4").mpr (Or.inr rfl)⟩

/-- `Record` never changes the blocklist. -/
theorem Record_blocklist (cfg : Config) (hashStr : String → Nat) (a : Analyzer)
    (ip path : String) : (a.Record cfg hashStr ip path).blocklist = a.blocklist := by
  unfold Analyzer.Record
  split <;> rfl

/-- `analyze` never removes a blocklist entry. -/
theorem analyze_blocklist_superset (cfg : Config) (hashIPPath : String → Nat → Nat)
    (a : Analyzer) (req : Request) (x : String) (h : x ∈ a.blocklist) :
    x ∈ (a.analyze cfg hashIPPath req).blocklist := by
  simp only [Analyzer.analyze]
  split
  · exact h
  · split
    · exact (block_mem a.blocklist req.ip x).mpr (Or.inl h)
    · exact h

/-- No single worker-visible operation removes a blocklist entry. -/
theorem blocked_mono_step (cfg : Config) (hashStr : String → Nat)
    (hashIPPath : String → Nat → Nat) (a : Analyzer) (op : WorkerOp) (ip : String)
    (h : a.Blocked ip = true) : (a.step cfg hashStr hashIPPath op).Blocked ip = true := by
  unfold Analyzer.Blocked at h ⊢
  rw [contains_mem] at h ⊢
  cases op with
  | record ip2 path =>
      show ip ∈ (a.Record cfg hashStr ip2 path).blocklist
      rw [Record_blocklist]
      exact h
  | process =>
      show ip ∈ (a.processOne cfg hashIPPath).blocklist
      unfold Analyzer.processOne
      split
      · exact h
      · exact analyze_blocklist_superset _ _ _ _ _ h
  | rotate => exact h

/-- C4: blocklist membership is monotonic non-decreasing — once
`Blocked ip` is true it stays true after any sequence of `Record` calls,
worker observation processing and rotations.  (`Close` only closes the
stop channel and never touches the blocklist, so no operation removes an
entry before shutdown.) -/
theorem blocked_monotonic (cfg : Config) (hashStr : String → Nat)
    (hashIPPath : String → Nat → Nat) (a : Analyzer) (ops : List WorkerOp)
    (ip : String) (h : a.Blocked ip = true) :
    (a.run cfg hashStr hashIPPath ops).Blocked ip = true := by
  induction ops generalizing a with
  | nil => exact h
  | cons op rest ih =>
      exact ih (a.step cfg hashStr hashIPPath op)
        (blocked_mono_step cfg hashStr hashIPPath a op ip h)

/-- An analyzer that has already blocklisted `"1.2.3.4"`. -/
def analyzerBlk : Analyzer := { analyzerFix with blocklist := ["1.2.3.4"] }

/-- Witness for C4: a blocked ip stays blocked across a concrete record,
a worker processing step and a rotation. -/
theorem blocked_monotonic_witness :
    (analyzerBlk.run cfgThr1 (fun _ => 7) hipFix
        [.record "5.6.7.8" "/a", .process, .rotate]).Blocked "1.2.3.4" = true :=
  blocked_monotonic cfgThr1 (fun _ => 7) hipFix analyzerBlk
    [.record "5.6.7.8" "/a", .process, .rotate] "1.2.3.4" (by decide)

/-- Looking a key up past a head entry with a different key. -/
theorem lookup_cons_ne {β : Type} (k a : String) (b : β) (es : List (String × β))
    (h : k ≠ a) : List.lookup a ((k, b) :: es) = List.lookup a es := by
  have hb : (a == k) = false := beq_eq_false_iff_ne.mpr (Ne.symm h)
  simp [List.lookup, hb]

/-- A `Visit` hit: the stored count and the returned count both become the
previous count plus one (uint16 wrap), and the entry moves to the front. -/
theorem visit_hit (c : Counter) (ip : String) (cnt : Nat)
    (h : c.entries.lookup ip = some cnt) :
    (c.Visit ip).1 = (cnt + 1) % U16MOD ∧
    ((c.Visit ip).2).entries.lookup ip = some ((cnt + 1) % U16MOD) := by
  unfold Counter.Visit
  simp [h, List.lookup]

/-- A `Visit` miss: the returned count is 1 and the fresh entry stores 1. -/
theorem visit_miss (c : Counter) (ip : String)
    (h : c.entries.lookup ip = none) :
    (c.Visit ip).1 = 1 ∧ ((c.Visit ip).2).entries.lookup ip = some 1 := by
  unfold Counter.Visit
  simp [h, List.lookup]

/-- After `n ≥ 1` consecutive visits of a client with no prior entry, the
n-th call returns `n mod 2^16` and that value is stored. -/
theorem visitIter_count (c : Counter) (ip : String)
    (habs : c.entries.lookup ip = none) (n : Nat) (hn : 1 ≤ n) :
    (c.visitIter ip n).1 = n % U16MOD ∧
    ((c.visitIter ip n).2).entries.lookup ip = some (n % U16MOD) := by
  induction n with
  | zero => omega
  | succ m ih =>
    by_cases hm : m = 0
    · subst hm
      have h1 := visit_miss c ip habs
      have hmod : 1 % U16MOD = 1 := by decide
      exact ⟨by simpa [Counter.visitIter, hmod] using h1.1,
             by simpa [Counter.visitIter, hmod] using h1.2⟩
    · have ihm := ih (by omega)
      have hstep := visit_hit ((c.visitIter ip m).2) ip (m % U16MOD) ihm.2
      have hmod : (m % U16MOD + 1) % U16MOD = (m + 1) % U16MOD := by
        unfold U16MOD
        omega
      refine ⟨?_, ?_⟩
      · show (((c.visitIter ip m).2).Visit ip).1 = (m + 1) % U16MOD
        rw [hstep.1, hmod]
      · show ((((c.visitIter ip m).2).Visit ip).2).entries.lookup ip =
          some ((m + 1) % U16MOD)
        rw [hstep.2, hmod]

/-- C8 counterexample: from a fresh counter the 65536-th consecutive
`Visit` call for a client returns 0, not 65536 — the `uint16` count wraps
around. -/
theorem visit_wraps_at_65536 :
    (NewCounter.visitIter "1.2.3.4" 65536).1 = 0 ∧ (0 : Nat) ≠ 65536 := by
  have h := visitIter_count NewCounter "1.2.3.4" rfl 65536 (by omega)
  exact ⟨h.1.trans (by decide), by decide⟩

/-- C8 (amended): for every client with no existing entry, the first
`Visit` call returns 1 and the n-th consecutive call (no intervening
`Clear`/rotation) returns `n mod 2^16` — hence exactly `n` for every
`n ≤ 65535`, while at `n = 65536` the 16-bit count wraps to 0. -/
theorem visit_consecutive_mod (c : Counter) (ip : String) (n : Nat)
    (habs : c.entries.lookup ip = none) (hn : 1 ≤ n) :
    (c.visitIter ip n).1 = n % U16MOD ∧
    (c.visitIter ip 1).1 = 1 ∧
    (n ≤ 65535 → (c.visitIter ip n).1 = n) := by
  have h := visitIter_count c ip habs n hn
  have h1 := visitIter_count c ip habs 1 (by omega)
  refine ⟨h.1, h1.1.trans (by decide), fun hle => h.1.trans ?_⟩
  unfold U16MOD
  omega

/-- Witness for C8 (amended) at a fresh counter and n = 3. -/
theorem visit_consecutive_mod_witness :
    (NewCounter.visitIter "1.2.3.4" 3).1 = 3 % U16MOD ∧
    (NewCounter.visitIter "1.2.3.4" 1).1 = 1 ∧
    (3 ≤ 65535 → (NewCounter.visitIter "1.2.3.4" 3).1 = 3) :=
  visit_consecutive_mod NewCounter "1.2.3.4" 3 rfl (by omega)

/-- A key with an entry contributes at least one element that the
move-to-front filter removes. -/
theorem filter_length_lt_of_lookup_some {β : Type} (es : List (String × β))
    (ip : String) (cnt : β) (h : es.lookup ip = some cnt) :
    (es.filter fun e => e.1 != ip).length < es.length := by
  induction es with
  | nil => simp [List.lookup] at h
  | cons e es ih =>
    obtain ⟨k, b⟩ := e
    by_cases hk : ip = k
    · subst hk
      have hfc : List.filter (fun e => e.1 != ip) ((ip, b) :: es) =
          List.filter (fun e => e.1 != ip) es := by
        simp [List.filter_cons]
      rw [hfc]
      have := List.length_filter_le (fun e => e.1 != ip) es
      simp only [List.length_cons]
      omega
    · have hb : (ip == k) = false := beq_eq_false_iff_ne.mpr hk
      have htail : es.lookup ip = some cnt := by
        simpa [List.lookup, hb] using h
      have hp : (((k, b).1 != ip) = true) := by
        simp
        exact fun he => hk he.symm
      have hfc : List.filter (fun e => e.1 != ip) ((k, b) :: es) =
          (k, b) :: List.filter (fun e => e.1 != ip) es := by
        simp [List.filter_cons, hp]
      rw [hfc]
      simp only [List.length_cons]
      exact Nat.succ_lt_succ (ih htail)

/-- `Visit` preserves the capacity field. -/
theorem visit_maxSize (c : Counter) (ip : String) :
    ((c.Visit ip).2).maxSize = c.maxSize := by
  unfold Counter.Visit
  split
  · rfl
  · rfl

/-- One `Visit` keeps the number of entries within the capacity (capacity
at least 1). -/
theorem visit_length_le (c : Counter) (ip : String) (hmax : 1 ≤ c.maxSize)
    (h : c.entries.length ≤ c.maxSize) :
    ((c.Visit ip).2).entries.length ≤ c.maxSize := by
  unfold Counter.Visit
  cases hl : c.entries.lookup ip with
  | some cnt =>
    have hflt := filter_length_lt_of_lookup_some c.entries ip cnt hl
    simp only [hl, List.length_cons]
    omega
  | none =>
    simp only [hl]
    by_cases hge : c.maxSize ≤ c.entries.length
    · have hne : c.entries ≠ [] := by
        intro he
        rw [he] at hge
        simp at hge
        omega
      rw [if_pos hge, List.length_cons, List.length_dropLast]
      have := List.length_pos.mpr hne
      omega
    · rw [if_neg hge, List.length_cons]
      omega

/-- A whole visit sequence keeps the number of entries within the
capacity. -/
theorem visitAll_length_le (c : Counter) (l : List String) (hmax : 1 ≤ c.maxSize)
    (h : c.entries.length ≤ c.maxSize) :
    (c.visitAll l).entries.length ≤ c.maxSize := by
  induction l generalizing c with
  | nil => exact h
  | cons x xs ih =>
    have hms := visit_maxSize c x
    have hnext := ih ((c.Visit x).2) (hms ▸ hmax) (hms ▸ visit_length_le c x hmax h)
    rw [hms] at hnext
    exact hnext

/-- A miss below capacity prepends a fresh count-1 entry. -/
theorem visit_fresh_insert (c : Counter) (ip : String)
    (habs : c.entries.lookup ip = none) (hlen : c.entries.length < c.maxSize) :
    ((c.Visit ip).2).entries = (ip, 1) :: c.entries := by
  unfold Counter.Visit
  simp only [habs, if_neg (not_le.mpr hlen)]

/-- Visiting a duplicate-free list of clients that all lack entries, with
room for all of them, prepends their count-1 entries in reverse visit
order (most recent first) and keeps the capacity. -/
theorem visitAll_fresh (c : Counter) (l : List String)
    (hfresh : ∀ x ∈ l, c.entries.lookup x = none)
    (hnodup : l.Nodup)
    (hlen : c.entries.length + l.length ≤ c.maxSize) :
    (c.visitAll l).entries = (l.reverse.map fun s => (s, 1)) ++ c.entries ∧
    (c.visitAll l).maxSize = c.maxSize := by
  induction l generalizing c with
  | nil => exact ⟨by simp [Counter.visitAll], rfl⟩
  | cons x xs ih =>
    have hx : c.entries.lookup x = none := hfresh x (List.mem_cons_self x xs)
    have hxlen : c.entries.length < c.maxSize := by
      simp only [List.length_cons] at hlen
      omega
    have hins := visit_fresh_insert c x hx hxlen
    have hms := visit_maxSize c x
    have hfresh2 : ∀ y ∈ xs, ((c.Visit x).2).entries.lookup y = none := by
      intro y hy
      rw [hins]
      have hxy : x ≠ y := by
        rintro rfl
        exact (List.nodup_cons.mp hnodup).1 hy
      rw [lookup_cons_ne x y 1 c.entries hxy]
      exact hfresh y (List.mem_cons_of_mem x hy)
    have hlen2 : ((c.Visit x).2).entries.length + xs.length ≤ ((c.Visit x).2).maxSize := by
      rw [hins, hms, List.length_cons]
      simp only [List.length_cons] at hlen
      omega
    have ihx := ih ((c.Visit x).2) hfresh2 (List.nodup_cons.mp hnodup).2 hlen2
    refine ⟨?_, ?_⟩
    · show (((c.Visit x).2).visitAll xs).entries = _
      rw [ihx.1, hins]
      simp [List.reverse_cons]
    · show (((c.Visit x).2).visitAll xs).maxSize = _
      rw [ihx.2, hms]

/-- A key absent from a list of clients has no entry among their count-1
pairs. -/
theorem lookup_map_one_eq_none (l : List String) (a : String) (h : a ∉ l) :
    List.lookup a (l.map fun s => (s, (1 : Nat))) = none := by
  induction l with
  | nil => rfl
  | cons x xs ih =>
    have hxa : x ≠ a := fun he => h (he ▸ List.mem_cons_self x xs)
    rw [List.map_cons, lookup_cons_ne x a 1 _ hxa]
    exact ih fun hm => h (List.mem_cons_of_mem x hm)

/-- C9: with capacity `N = mid.length + 1`, visiting the `N + 1` distinct
clients `first, mid…, last` (no repeats) from an empty counter evicts the
least-recently-visited client `first` — its `Count` reads 0 — and the
counter ends with at most `N` entries; moreover, from any state within a
capacity of at least 1, no visit sequence ever pushes the number of
distinct clients above the capacity. -/
theorem counter_lru_eviction (N : Nat) (first last : String) (mid : List String)
    (hnodup : (first :: (mid ++ [last])).Nodup)
    (hN : mid.length + 1 = N) :
    ((Counter.empty N).visitAll (first :: (mid ++ [last]))).Count first = 0 ∧
    ((Counter.empty N).visitAll (first :: (mid ++ [last]))).entries.length ≤ N ∧
    (∀ (c : Counter) (l : List String), 1 ≤ c.maxSize →
        c.entries.length ≤ c.maxSize →
        (c.visitAll l).entries.length ≤ c.maxSize) := by
  have hinv : ∀ (c : Counter) (l : List String), 1 ≤ c.maxSize →
      c.entries.length ≤ c.maxSize →
      (c.visitAll l).entries.length ≤ c.maxSize := fun c l h1 h2 =>
    visitAll_length_le c l h1 h2
  -- last is distinct from first and from every element of mid
  have hnd := List.nodup_cons.mp hnodup
  have hnd2 := List.nodup_append.mp hnd.2
  have hlast_notin : last ∉ first :: mid := by
    intro hm
    rcases List.mem_cons.mp hm with hm1 | hm2
    · exact hnd.1 (hm1 ▸ List.mem_append_right mid (List.mem_singleton_self last))
    · exact hnd2.2.2 hm2 (List.mem_singleton_self last)
  have hfirst_notin_mid : first ∉ mid := fun hm =>
    hnd.1 (List.mem_append_left [last] hm)
  -- phase 1: fill the counter with first :: mid
  have hsplitlist : first :: (mid ++ [last]) = (first :: mid) ++ [last] := rfl
  have hfill := visitAll_fresh (Counter.empty N) (first :: mid)
    (fun x _ => rfl)
    (by
      have : ((first :: mid) ++ [last]).Nodup := hsplitlist ▸ hnodup
      exact this.of_append_left)
    (by simp [Counter.empty, List.length_cons]; omega)
  have hc1e : ((Counter.empty N).visitAll (first :: mid)).entries =
      (mid.reverse.map fun s => (s, (1 : Nat))) ++ [(first, 1)] := by
    rw [hfill.1]
    simp [List.reverse_cons, Counter.empty]
  have hc1len : ((Counter.empty N).visitAll (first :: mid)).entries.length = N := by
    rw [hc1e]
    simp
    omega
  have hc1ms : ((Counter.empty N).visitAll (first :: mid)).maxSize = N := hfill.2
  -- the final visit of last evicts first
  have hlast_abs : ((Counter.empty N).visitAll (first :: mid)).entries.lookup last = none := by
    rw [hc1e]
    have hshape : (mid.reverse.map fun s => (s, (1 : Nat))) ++ [(first, 1)] =
        ((mid.reverse ++ [first]).map fun s => (s, (1 : Nat))) := by simp
    rw [hshape]
    refine lookup_map_one_eq_none _ _ ?_
    intro hm
    rcases List.mem_append.mp hm with hm1 | hm2
    · exact hlast_notin (List.mem_cons_of_mem first (List.mem_reverse.mp hm1))
    · exact hlast_notin (List.mem_cons.mpr (Or.inl (List.mem_singleton.mp hm2)))
  have hfin : ((((Counter.empty N).visitAll (first :: mid)).Visit last).2).entries =
      (last, 1) :: (mid.reverse.map fun s => (s, (1 : Nat))) := by
    unfold Counter.Visit
    simp only [hlast_abs]
    have hge : ((Counter.empty N).visitAll (first :: mid)).maxSize ≤
        ((Counter.empty N).visitAll (first :: mid)).entries.length := by
      rw [hc1len, hc1ms]
    rw [if_pos hge, hc1e, List.dropLast_concat]
  have hsplit : (Counter.empty N).visitAll (first :: (mid ++ [last])) =
      (((Counter.empty N).visitAll (first :: mid)).Visit last).2 := by
    rw [hsplitlist]
    unfold Counter.visitAll
    rw [List.foldl_append]
    rfl
  refine ⟨?_, ?_, hinv⟩
  · unfold Counter.Count
    rw [hsplit, hfin]
    have hlf : last ≠ first := fun he =>
      hlast_notin (he ▸ List.mem_cons_self first mid)
    rw [lookup_cons_ne last first 1 _ hlf,
      lookup_map_one_eq_none _ _ (fun hm => hfirst_notin_mid (List.mem_reverse.mp hm))]
    rfl
  · rw [hsplit, hfin]
    simp
    omega

/-- Witness for C9 at capacity 2 and the three distinct clients
`"a"`, `"b"`, `"c"`. -/
theorem counter_lru_eviction_witness :
    ((Counter.empty 2).visitAll ("a" :: (["b"] ++ ["c"]))).Count "a" = 0 ∧
    ((Counter.empty 2).visitAll ("a" :: (["b"] ++ ["c"]))).entries.length ≤ 2 ∧
    (∀ (c : Counter) (l : List String), 1 ≤ c.maxSize →
        c.entries.length ≤ c.maxSize →
        (c.visitAll l).entries.length ≤ c.maxSize) :=
  counter_lru_eviction 2 "a" "c" ["b"] (by decide) rfl

end Botrate
